import Mathlib

/-!
Verification of the selection/variation engine of a tree-based genetic
programming system (`stdgp/GeneticOperators.py`).

The operators of `GeneticOperators.py` are embedded as pure Lean functions.
The external collaborators that the source file imports but that are not part
of the verified source (`Individual`, `Node`, and the injected random source)
are modelled from the specification, with each such definition marked
`Modelled from the spec:` in its doc comment.

The random source is modelled as a stream of natural numbers together with a
read position; every operation that consumes randomness threads the stream
state explicitly, so "how many draws were consumed" is observable as the
change of position.
-/

/-- Modelled from the spec: the external random source ("a stream of uniform
integers ... injected into every operator call").  `seq` is the raw stream and
`pos` the next unread position. -/
structure Rng where
  seq : Nat → Nat
  pos : Nat

/-- Modelled from the spec: reading one raw value from the random source. -/
def Rng.next (r : Rng) : Nat × Rng :=
  (r.seq r.pos, ⟨r.seq, r.pos + 1⟩)

/-- Modelled from the spec: `rng.randint(a, b)` returns a uniform integer in
the inclusive range `[a, b]`; the raw stream value is reduced into the range.
Consumes exactly one draw. -/
def Rng.randint (r : Rng) (a b : Nat) : Nat × Rng :=
  let v := r.next
  (a + v.1 % (b - a + 1), v.2)

/-- Modelled from the spec: `rng.random() < 0.5`, an unbiased coin.
Consumes exactly one draw. -/
def Rng.coin (r : Rng) : Bool × Rng :=
  let v := r.next
  (v.1 % 2 == 0, v.2)

/-- Modelled from the spec: the external program-tree node.  The tree of the
reference implementation is binary: an operator node with two children or a
terminal leaf. -/
inductive Node where
  | term (v : String) : Node
  | node (v : String) (l r : Node) : Node
deriving DecidableEq, Repr

/-- Modelled from the spec: `depth()` — structural depth of the subtree, a
single leaf having depth 1. -/
def Node.depth : Node → Nat
  | .term _ => 1
  | .node _ l r => 1 + max l.depth r.depth

/-- Modelled from the spec: node count of the subtree. -/
def Node.size : Node → Nat
  | .term _ => 1
  | .node _ l r => 1 + l.size + r.size

/-- A position inside a tree: the list of branch choices from the root
(`false` = left child, `true` = right child). -/
abbrev TreePath := List Bool

/-- The positions of all nodes of a tree, root first (preorder). -/
def Node.paths : Node → List TreePath
  | .term _ => [[]]
  | .node _ l r =>
      [] :: (l.paths.map (List.cons false) ++ r.paths.map (List.cons true))

/-- The subtree rooted at a position (the tree itself for an invalid path). -/
def Node.subtreeAt : Node → TreePath → Node
  | t, [] => t
  | .term v, _ :: _ => .term v
  | .node _ l r, b :: p => if b then r.subtreeAt p else l.subtreeAt p

/-- Replacing the subtree at a position by another tree (no change at an
invalid path). -/
def Node.replaceAt : Node → TreePath → Node → Node
  | _, [], n => n
  | .term v, _ :: _, _ => .term v
  | .node v l r, b :: p, n =>
      if b then .node v l (r.replaceAt p n) else .node v (l.replaceAt p n) r

/-- Modelled from the spec: `randomNode(rng)` — uniformly selects a node of
the tree; the model draws one index into the preorder listing of positions. -/
def Node.getRandomNode (t : Node) (r : Rng) : TreePath × Rng :=
  let ps := t.paths
  let d := r.randint 0 (ps.length - 1)
  (ps.getD d.1 [], d.2)

/-- Modelled from the spec: the external `Individual` — a program tree plus
fitness, size, and the configuration tuple (operator set, terminal set, max
depth, model identity, fitness-direction policy) copied at construction. -/
structure Individual where
  operators : List String
  terminals : List String
  max_depth : Nat
  model_name : String
  fitnessType : String
  fitness : Int
  head : Node
deriving DecidableEq, Repr

instance : Inhabited Individual :=
  ⟨⟨[], [], 0, "", "", 0, .term ""⟩⟩

/-- Modelled from the spec: read access to the size (node count) of an
Individual's tree. -/
def Individual.size (i : Individual) : Nat := i.head.size

/-- Modelled from the spec: `getDepth()` of an Individual. -/
def Individual.getDepth (i : Individual) : Nat := i.head.depth

/-- Modelled from the spec: `getHead()` hands the variation operators a fresh
structural copy of the tree; with value semantics the copy is the tree
itself. -/
def Individual.getHead (i : Individual) : Node := i.head

/-- Modelled from the spec: `Individual(operators, terminals, max_depth,
model_name, fitnessType)` followed by `copy(tree)` — a new Individual with the
given configuration and tree; fitness is unset (assigned externally later),
modelled as 0. -/
def newIndividual (src : Individual) (h : Node) : Individual :=
  { operators := src.operators
    terminals := src.terminals
    max_depth := src.max_depth
    model_name := src.model_name
    fitnessType := src.fitnessType
    fitness := 0
    head := h }

/-- Stable insertion of an element into a list ordered by an integer key:
the element goes in front of the first entry with a strictly larger or equal
key. -/
def insertByKey (key : Individual → Int) (a : Individual) :
    List Individual → List Individual
  | [] => [a]
  | b :: l => if key a ≤ key b then a :: b :: l else b :: insertByKey key a l

/-- Python's `sorted(population, key=...)`: a stable sort returning a new
list; embedded as stable insertion sort (any stable sort computes the same
function). -/
def sortByKey (key : Individual → Int) : List Individual → List Individual
  | [] => []
  | a :: l => insertByKey key a (sortByKey key l)

/-- Python's `min` over a nonempty list of indices (0 on the empty list,
where the source would raise). -/
def minList : List Nat → Nat
  | [] => 0
  | [x] => x
  | x :: y :: xs => min x (minList (y :: xs))

/-- `[rng.randint(0, bound-1) for _ in range(n)]`: `n` successive draws,
each reduced modulo `bound`. -/
def randints (r : Rng) (bound : Nat) : Nat → List Nat × Rng
  | 0 => ([], r)
  | n + 1 =>
      let d := r.randint 0 (bound - 1)
      let rest := randints d.2 bound n
      (d.1 :: rest.1, rest.2)

/-- Modelled from the spec: `rng.sample(pool, k)` — `k` distinct draws
without replacement; the model repeatedly removes a uniformly chosen entry
from the remaining pool. -/
def sample (r : Rng) (pool : List Nat) : Nat → List Nat × Rng
  | 0 => ([], r)
  | k + 1 =>
      if pool.isEmpty then ([], r)
      else
        let d := r.next
        let j := d.1 % pool.length
        let rest := sample d.2 (pool.eraseIdx j) k
        (pool.getD j 0 :: rest.1, rest.2)

/-- `tournament(rng, population, n)`: draw `n` indices with replacement from
`[0, len(population))` and return the population entry at the minimum drawn
index. -/
def tournament (r : Rng) (population : List Individual) (n : Nat) :
    Individual × Rng :=
  let candidates := randints r population.length n
  (population.getD (minList candidates.1) default, candidates.2)

/-- The list comprehension shared by the first-tournament mode of
`fit_tournament` and `size_tournament`: `count` rounds, each drawing `n_comp`
indices with replacement from `[0, len(pool))` and keeping the pool entry at
the minimum drawn index. -/
def tournWinners (r : Rng) (pool : List Individual) (count n_comp : Nat) :
    List Individual × Rng :=
  match count with
  | 0 => ([], r)
  | c + 1 =>
      let d := randints r pool.length n_comp
      let w := pool.getD (minList d.1) default
      let rest := tournWinners d.2 pool c n_comp
      (w :: rest.1, rest.2)

/-- `fit_tournament(..., first_tournament=True)`: `Sf` fitness tournaments
over the full population; the winners are returned sorted ascending by
`fitness` (the source's `sorted(candidates, key=lambda x: x.fitness)`). -/
def fit_tournament_first (r : Rng) (population : List Individual)
    (Sf n_comp : Nat) : List Individual × Rng :=
  let c := tournWinners r population Sf n_comp
  (sortByKey (fun x => x.fitness) c.1, c.2)

/-- `fit_tournament(..., first_tournament=False)`: one tournament drawing
`Sf` distinct indices without replacement from `range(len(population))` and
returning the population entry at the minimum drawn index. -/
def fit_tournament_second (r : Rng) (population : List Individual)
    (Sf : Nat) : Individual × Rng :=
  let c := sample r (List.range population.length) Sf
  (population.getD (minList c.1) default, c.2)

/-- `size_tournament(..., first_tournament=True)`: the population is first
re-sorted ascending by `size` into a fresh list (`sorted(population, ...)`),
then `Sp` tournaments index that sorted copy; the winners are returned sorted
ascending by `fitness`. -/
def size_tournament_first (r : Rng) (population : List Individual)
    (Sp n_comp : Nat) : List Individual × Rng :=
  let sorted_population := sortByKey (fun x => (x.size : Int)) population
  let c := tournWinners r sorted_population Sp n_comp
  (sortByKey (fun x => x.fitness) c.1, c.2)

/-- `size_tournament(..., first_tournament=False)`: sort a fresh copy of the
population ascending by `size`, draw `Sp` distinct indices without
replacement from `range(len(population))`, and return the entry of the sorted
copy at the minimum drawn index. -/
def size_tournament_second (r : Rng) (population : List Individual)
    (Sp : Nat) : Individual × Rng :=
  let sorted_population := sortByKey (fun x => (x.size : Int)) population
  let c := sample r (List.range population.length) Sp
  (sorted_population.getD (minList c.1) default, c.2)

/-- The error of `double_tournament`'s violated dominance constraint (the
source's failed `assert`; the spec names it InvalidTournamentConfiguration). -/
inductive TournamentError where
  | invalidTournamentConfiguration (msg : String) : TournamentError
deriving DecidableEq, Repr

/-- `true` exactly on the error outcome. -/
def isErr {α : Type} : Except TournamentError α → Bool
  | .error _ => true
  | .ok _ => false

/-- The value of a successful outcome. -/
def okValue {α : Type} : Except TournamentError α → Option α
  | .error _ => none
  | .ok a => some a

/-- `double_tournament(rng, population, Sf, Sp, n_comp, switch)`.  Each
branch checks its dominance constraint first (the source's `assert`, raised
before any randomness is consumed) and then runs the first-tournament pass of
the dominant criterion followed by the second-tournament pass of the other
criterion over the resulting qualifiers. -/
def double_tournament (r : Rng) (population : List Individual)
    (Sf Sp n_comp : Nat) (switch : Bool) :
    Except TournamentError Individual × Rng :=
  if switch then
    if Sf ≤ Sp then
      let q := size_tournament_first r population Sp n_comp
      let p := fit_tournament_second q.2 q.1 Sf
      (.ok p.1, p.2)
    else
      (.error (.invalidTournamentConfiguration "Sp needs to be higher than Sf"), r)
  else
    if Sp ≤ Sf then
      let q := fit_tournament_first r population Sf n_comp
      let p := size_tournament_second q.2 q.1 Sp
      (.ok p.1, p.2)
    else
      (.error (.invalidTournamentConfiguration "Sf needs to be higher than Sp"), r)

/-- `getElite(population, n)`: the slice `population[:n]`. -/
def getElite (population : List Individual) (n : Nat) : List Individual :=
  population.take n

/-- `discardDeep(population, limit)`: keep, in order, exactly the Individuals
with `getDepth() <= limit`. -/
def discardDeep (population : List Individual) (limit : Nat) :
    List Individual :=
  population.filter (fun ind => decide (ind.getDepth ≤ limit))

/-- Modelled from the spec: `Node.create(rng, operators, terminals, maxDepth)`
— grow a fresh random subtree of depth at most `maxDepth` from the given
operator and terminal sets (one draw chooses branch-vs-leaf, one draw chooses
the symbol). -/
def growTree (operators terminals : List String) : Nat → Rng → Node × Rng
  | 0, r =>
      let d := r.next
      (.term (terminals.getD (d.1 % terminals.length) ""), d.2)
  | 1, r =>
      let d := r.next
      (.term (terminals.getD (d.1 % terminals.length) ""), d.2)
  | d + 2, r =>
      let c := r.next
      if c.1 % 2 == 0 then
        let o := c.2.next
        let l := growTree operators terminals (d + 1) o.2
        let rt := growTree operators terminals (d + 1) l.2
        (.node (operators.getD (o.1 % operators.length) "") l.1 rt.1, rt.2)
      else
        let t := c.2.next
        (.term (terminals.getD (t.1 % terminals.length) ""), t.2)

/-- The parent-selection step shared by `STXO` and `STMUT`: plain tournament
when `double` is false, `double_tournament` (which can fail) otherwise. -/
def selectParent (r : Rng) (population : List Individual)
    (tournament_size : Nat) (double : Bool) (Sf Sp : Nat) (Switch : Bool) :
    Except TournamentError Individual × Rng :=
  if double then
    double_tournament r population Sf Sp tournament_size Switch
  else
    let t := tournament r population tournament_size
    (.ok t.1, t.2)

/-- `STXO(rng, population, ...)`: select two parents, pick one random node in
a copy of each parent's tree, swap the two subtrees, and return two new
Individuals carrying the post-swap trees.  Both new Individuals are
constructed from `ind1`'s configuration, as in the source
(`Individual(ind1.operators, ind1.terminals, ...)` inside the loop over
`[h1, h2]`). -/
def STXO (r : Rng) (population : List Individual) (tournament_size : Nat)
    (double : Bool) (Sf Sp : Nat) (Switch : Bool) :
    Except TournamentError (List Individual) × Rng :=
  match selectParent r population tournament_size double Sf Sp Switch with
  | (.error e, r1) => (.error e, r1)
  | (.ok ind1, r1) =>
      match selectParent r1 population tournament_size double Sf Sp Switch with
      | (.error e, r2) => (.error e, r2)
      | (.ok ind2, r2) =>
          let h1 := ind1.getHead
          let h2 := ind2.getHead
          let q1 := h1.getRandomNode r2
          let q2 := h2.getRandomNode q1.2
          let h1s := h1.replaceAt q1.1 (h2.subtreeAt q2.1)
          let h2s := h2.replaceAt q2.1 (h1.subtreeAt q1.1)
          (.ok [newIndividual ind1 h1s, newIndividual ind1 h2s], q2.2)

/-- `STMUT(rng, population, ...)`: select one parent, pick one random node in
a copy of its tree, grow a fresh random subtree, swap it in, and return one
new Individual with the mutated tree and the parent's configuration. -/
def STMUT (r : Rng) (population : List Individual) (tournament_size : Nat)
    (double : Bool) (Sf Sp : Nat) (Switch : Bool) :
    Except TournamentError (List Individual) × Rng :=
  match selectParent r population tournament_size double Sf Sp Switch with
  | (.error e, r1) => (.error e, r1)
  | (.ok ind1, r1) =>
      let h1 := ind1.getHead
      let q1 := h1.getRandomNode r1
      let g := growTree ind1.operators ind1.terminals ind1.max_depth q1.2
      let h1s := h1.replaceAt q1.1 g.1
      (.ok [newIndividual ind1 h1s], g.2)

/-- `getOffspring(rng, population, ...)`: flip a coin; crossover on heads,
mutation on tails; return the variation result as produced (the source
returns `desc` directly and never applies `discardDeep`). -/
def getOffspring (r : Rng) (population : List Individual)
    (tournament_size : Nat) (double : Bool) (Sf Sp : Nat) (Switch : Bool) :
    Except TournamentError (List Individual) × Rng :=
  let c := r.coin
  if c.1 then
    STXO c.2 population tournament_size double Sf Sp Switch
  else
    STMUT c.2 population tournament_size double Sf Sp Switch

/-- The per-call state visible to an operator: the injected random source and
the shared population sequence.  Used to state frame properties ("no operator
mutates the population argument"). -/
structure GPState where
  rng : Rng
  pop : List Individual

/-- `tournament` as a state transformer on `GPState`. -/
def tournamentS (s : GPState) (n : Nat) : Individual × GPState :=
  let t := tournament s.rng s.pop n
  (t.1, ⟨t.2, s.pop⟩)

/-- First-tournament mode of `fit_tournament` as a state transformer. -/
def fit_tournament_firstS (s : GPState) (Sf n_comp : Nat) :
    List Individual × GPState :=
  let t := fit_tournament_first s.rng s.pop Sf n_comp
  (t.1, ⟨t.2, s.pop⟩)

/-- Second-tournament mode of `fit_tournament` as a state transformer. -/
def fit_tournament_secondS (s : GPState) (Sf : Nat) :
    Individual × GPState :=
  let t := fit_tournament_second s.rng s.pop Sf
  (t.1, ⟨t.2, s.pop⟩)

/-- First-tournament mode of `size_tournament` as a state transformer. -/
def size_tournament_firstS (s : GPState) (Sp n_comp : Nat) :
    List Individual × GPState :=
  let t := size_tournament_first s.rng s.pop Sp n_comp
  (t.1, ⟨t.2, s.pop⟩)

/-- Second-tournament mode of `size_tournament` as a state transformer. -/
def size_tournament_secondS (s : GPState) (Sp : Nat) :
    Individual × GPState :=
  let t := size_tournament_second s.rng s.pop Sp
  (t.1, ⟨t.2, s.pop⟩)

/-- `double_tournament` as a state transformer. -/
def double_tournamentS (s : GPState) (Sf Sp n_comp : Nat) (switch : Bool) :
    Except TournamentError Individual × GPState :=
  let t := double_tournament s.rng s.pop Sf Sp n_comp switch
  (t.1, ⟨t.2, s.pop⟩)

/-- `getElite` as a state transformer (it consumes no randomness). -/
def getEliteS (s : GPState) (n : Nat) : List Individual × GPState :=
  (getElite s.pop n, s)

/-- `discardDeep` as a state transformer (it consumes no randomness). -/
def discardDeepS (s : GPState) (limit : Nat) : List Individual × GPState :=
  (discardDeep s.pop limit, s)

/-! ### Concrete inputs used in witnesses and counterexamples -/

/-- A concrete Individual (single-leaf tree, fitness 0). -/
def indA : Individual :=
  { operators := ["+"], terminals := ["x"], max_depth := 4,
    model_name := "A", fitnessType := "rmse", fitness := 0, head := .term "x" }

/-- A concrete Individual with a configuration different from `indA`. -/
def indB : Individual :=
  { operators := ["-"], terminals := ["y"], max_depth := 4,
    model_name := "B", fitnessType := "rmse", fitness := 1, head := .term "y" }

/-- A concrete Individual with better fitness (0) but larger size (3). -/
def indP : Individual :=
  { operators := ["+"], terminals := ["x"], max_depth := 4,
    model_name := "P", fitnessType := "rmse", fitness := 0,
    head := .node "+" (.term "x") (.term "x") }

/-- A concrete Individual with worse fitness (1) but smaller size (1). -/
def indQ : Individual :=
  { operators := ["+"], terminals := ["y"], max_depth := 4,
    model_name := "Q", fitnessType := "rmse", fitness := 1, head := .term "y" }

/-- A concrete Individual whose tree depth (3) exceeds its configured
maximum depth (2). -/
def indDeep : Individual :=
  { operators := ["+"], terminals := ["x"], max_depth := 2,
    model_name := "D", fitnessType := "rmse", fitness := 0,
    head := .node "+" (.node "+" (.term "x") (.term "x")) (.term "x") }

/-- The constant-zero random stream. -/
def rng0 : Rng := ⟨fun _ => 0, 0⟩

/-- The constant-one random stream. -/
def rng1 : Rng := ⟨fun _ => 1, 0⟩

/-- The identity random stream (position `n` holds value `n`). -/
def rngId : Rng := ⟨fun n => n, 0⟩

/-! ### Helper lemmas -/

theorem insertByKey_perm (key : Individual → Int) (a : Individual) :
    ∀ l : List Individual, (insertByKey key a l).Perm (a :: l)
  | [] => by simp [insertByKey]
  | b :: l => by
    simp only [insertByKey]
    split
    · exact List.Perm.refl _
    · exact ((insertByKey_perm key a l).cons b).trans (List.Perm.swap a b l)

theorem sortByKey_perm (key : Individual → Int) :
    ∀ l : List Individual, (sortByKey key l).Perm l
  | [] => by simp [sortByKey]
  | a :: l => by
    simp only [sortByKey]
    exact (insertByKey_perm key a (sortByKey key l)).trans
      ((sortByKey_perm key l).cons a)

theorem mem_insertByKey (key : Individual → Int) (a c : Individual)
    (l : List Individual) :
    c ∈ insertByKey key a l ↔ c = a ∨ c ∈ l := by
  rw [(insertByKey_perm key a l).mem_iff]
  simp

theorem pairwise_insertByKey (key : Individual → Int) (a : Individual)
    (l : List Individual)
    (h : List.Pairwise (fun x y => key x ≤ key y) l) :
    List.Pairwise (fun x y => key x ≤ key y) (insertByKey key a l) := by
  induction l with
  | nil => simp [insertByKey]
  | cons b l ih =>
    rcases List.pairwise_cons.mp h with ⟨hb, hl⟩
    simp only [insertByKey]
    split
    · refine List.pairwise_cons.mpr ⟨?_, h⟩
      intro c hc
      rcases List.mem_cons.mp hc with rfl | hc
      · assumption
      · exact le_trans (by assumption) (hb c hc)
    · refine List.pairwise_cons.mpr ⟨?_, ih hl⟩
      intro c hc
      rcases (mem_insertByKey key a c l).mp hc with rfl | hc
      · exact le_of_not_le (by assumption)
      · exact hb c hc

theorem pairwise_sortByKey (key : Individual → Int) :
    ∀ l : List Individual,
      List.Pairwise (fun x y => key x ≤ key y) (sortByKey key l)
  | [] => by simp [sortByKey]
  | a :: l => by
    simp only [sortByKey]
    exact pairwise_insertByKey key a _ (pairwise_sortByKey key l)

theorem sortByKey_length (key : Individual → Int) (l : List Individual) :
    (sortByKey key l).length = l.length :=
  (sortByKey_perm key l).length_eq

theorem minList_mem : ∀ l : List Nat, l ≠ [] → minList l ∈ l
  | [x], _ => by simp [minList]
  | x :: y :: xs, _ => by
    have ih := minList_mem (y :: xs) (by simp)
    simp only [minList]
    rcases le_total x (minList (y :: xs)) with h | h
    · simp [Nat.min_eq_left h]
    · simp only [Nat.min_eq_right h]
      exact List.mem_cons_of_mem x ih

theorem minList_le : ∀ l : List Nat, ∀ x ∈ l, minList l ≤ x
  | [x], z, hz => by
    rcases List.mem_singleton.mp hz with rfl
    simp [minList]
  | x :: y :: xs, z, hz => by
    simp only [minList]
    rcases List.mem_cons.mp hz with rfl | hz
    · exact Nat.min_le_left _ _
    · exact le_trans (Nat.min_le_right _ _) (minList_le (y :: xs) z hz)

theorem minList_eq_zero_iff (l : List Nat) (h : l ≠ []) :
    minList l = 0 ↔ 0 ∈ l := by
  constructor
  · intro h0
    have := minList_mem l h
    rwa [h0] at this
  · intro h0
    exact Nat.le_zero.mp (minList_le l 0 h0)

theorem randints_eq (seq : Nat → Nat) (bound : Nat) (hb : 1 ≤ bound) :
    ∀ (n p : Nat),
      randints ⟨seq, p⟩ bound n =
        ((List.range n).map (fun j => seq (p + j) % bound), ⟨seq, p + n⟩)
  | 0, p => by simp [randints]
  | n + 1, p => by
    have hb1 : bound - 1 + 1 = bound := Nat.succ_pred_eq_of_pos hb
    have ih := randints_eq seq bound hb n (p + 1)
    simp only [randints, Rng.randint, Rng.next, ih, List.range_succ_eq_map,
      List.map_cons, List.map_map, Prod.mk.injEq, List.cons.injEq,
      Rng.mk.injEq, hb1]
    refine ⟨⟨by simp [hb1], ?_⟩, by simp, by omega⟩
    refine List.map_congr_left ?_
    intro j _
    simp only [Function.comp_apply]
    have hpj : p + 1 + j = p + Nat.succ j := by omega
    rw [hpj]

theorem randints_spec (r : Rng) (bound : Nat) (hb : 1 ≤ bound) (n : Nat) :
    (randints r bound n).1 =
      (List.range n).map (fun j => r.seq (r.pos + j) % bound) ∧
    (randints r bound n).2 = ⟨r.seq, r.pos + n⟩ := by
  have h := randints_eq r.seq bound hb n r.pos
  constructor
  · show (randints ⟨r.seq, r.pos⟩ bound n).1 = _
    rw [h]
  · show (randints ⟨r.seq, r.pos⟩ bound n).2 = _
    rw [h]

theorem randints_length (r : Rng) (bound : Nat) (hb : 1 ≤ bound) (n : Nat) :
    (randints r bound n).1.length = n := by
  rw [(randints_spec r bound hb n).1]
  simp

theorem randints_lt (r : Rng) (bound : Nat) (hb : 1 ≤ bound) (n : Nat) :
    ∀ i ∈ (randints r bound n).1, i < bound := by
  rw [(randints_spec r bound hb n).1]
  intro i hi
  rcases List.mem_map.mp hi with ⟨j, _, rfl⟩
  exact Nat.mod_lt _ hb

theorem getD_take {α : Type} (d : α) :
    ∀ (l : List α) (n i : Nat), i < n → (l.take n).getD i d = l.getD i d
  | [], n, i, _ => by simp
  | a :: l, n + 1, 0, _ => by simp
  | a :: l, n + 1, i + 1, h => by
    simp only [List.take, List.getD_cons_succ]
    exact getD_take d l n i (Nat.lt_of_succ_lt_succ h)

theorem tournWinners_length (r : Rng) (pool : List Individual) :
    ∀ (count n_comp : Nat), (tournWinners r pool count n_comp).1.length = count
  | 0, _ => rfl
  | c + 1, n_comp => by
    simp only [tournWinners, List.length_cons]
    rw [tournWinners_length _ pool c n_comp]

/-! ### Claim theorems -/

/-- C1: for every non-empty population and `Sf, Sp, n_comp ≥ 1`,
`double_tournament` fails with the InvalidTournamentConfiguration error if
and only if the dominance constraint is violated (`switch=false` with
`Sf < Sp`, or `switch=true` with `Sp < Sf`), and when it fails it does so
before any draw from the random source is consumed (the random source is
returned unchanged). -/
theorem double_tournament_invalid_config_iff (r : Rng) (pop : List Individual)
    (Sf Sp n_comp : Nat) (sw : Bool)
    (hp : pop ≠ []) (hSf : 1 ≤ Sf) (hSp : 1 ≤ Sp) (hc : 1 ≤ n_comp) :
    (isErr (double_tournament r pop Sf Sp n_comp sw).1 = true ↔
      (if sw then Sp < Sf else Sf < Sp)) ∧
    (isErr (double_tournament r pop Sf Sp n_comp sw).1 = true →
      (double_tournament r pop Sf Sp n_comp sw).2 = r) := by
  cases sw
  · by_cases h : Sp ≤ Sf <;> simp [double_tournament, h, isErr] <;> omega
  · by_cases h : Sf ≤ Sp <;> simp [double_tournament, h, isErr] <;> omega

/-- C1 witness: concrete instantiation at `Sf = 2, Sp = 1, n_comp = 1`,
`switch = false` on a singleton population. -/
theorem double_tournament_invalid_config_iff_witness :
    (isErr (double_tournament rng0 [indA] 2 1 1 false).1 = true ↔
      (if false then (1 : Nat) < 2 else (2 : Nat) < 1)) ∧
    (isErr (double_tournament rng0 [indA] 2 1 1 false).1 = true →
      (double_tournament rng0 [indA] 2 1 1 false).2 = rng0) :=
  double_tournament_invalid_config_iff rng0 [indA] 2 1 1 false
    (by simp) (by decide) (by decide) (by decide)

/-- C3: for a non-empty population and `1 ≤ k ≤ N`, `tournament` draws `k`
indices with replacement from `[0, N)` — in the stream model, draw `j` is the
raw stream value at offset `j` reduced modulo `N` — and returns the
population entry at the minimum drawn index. -/
theorem tournament_min_of_uniform_draws (r : Rng) (pop : List Individual)
    (k : Nat) (hp : pop ≠ []) (hk : 1 ≤ k) (hkN : k ≤ pop.length) :
    (randints r pop.length k).1 =
      (List.range k).map (fun j => r.seq (r.pos + j) % pop.length) ∧
    (randints r pop.length k).1.length = k ∧
    (∀ i ∈ (randints r pop.length k).1, i < pop.length) ∧
    minList (randints r pop.length k).1 < pop.length ∧
    (tournament r pop k).1 =
      pop.getD (minList (randints r pop.length k).1) default := by
  have hb : 1 ≤ pop.length := List.length_pos.mpr hp
  refine ⟨(randints_spec r _ hb k).1, randints_length r _ hb k,
    randints_lt r _ hb k, ?_, rfl⟩
  have hlen := randints_length r pop.length hb k
  have hne : (randints r pop.length k).1 ≠ [] := by
    intro h0
    rw [h0] at hlen
    simp at hlen
    omega
  exact randints_lt r _ hb k _ (minList_mem _ hne)

/-- C3 witness: concrete instantiation at a singleton population and
`k = 1`. -/
theorem tournament_min_of_uniform_draws_witness :
    (randints rng0 [indA].length 1).1 =
      (List.range 1).map (fun j => rng0.seq (rng0.pos + j) % [indA].length) ∧
    (randints rng0 [indA].length 1).1.length = 1 ∧
    (∀ i ∈ (randints rng0 [indA].length 1).1, i < [indA].length) ∧
    minList (randints rng0 [indA].length 1).1 < [indA].length ∧
    (tournament rng0 [indA] 1).1 =
      [indA].getD (minList (randints rng0 [indA].length 1).1) default :=
  tournament_min_of_uniform_draws rng0 [indA] 1 (by simp) (by decide) (by simp)

/-- C4 counterexample: on the two-element population `[indA, indB]` with the
constant-one random stream, `tournament` with `k = N = 2` draws the indices
`[1, 1]` and returns `indB`, not the best Individual `indA`. -/
theorem tournament_full_sample_counterexample :
    (tournament rng1 [indA, indB] 2).1 = indB ∧
    [indA, indB].getD 0 default = indA ∧
    indB ≠ indA := by decide

/-- C4 (amended): with `k = N` the `tournament` returns the entry at the
minimum of the `N` drawn indices, and that minimum is index 0 (the best
rank) if and only if 0 is among the draws — drawing with replacement does
not guarantee it. -/
theorem tournament_full_sample_best_iff (r : Rng) (pop : List Individual)
    (hp : pop ≠ []) :
    (tournament r pop pop.length).1 =
      pop.getD (minList (randints r pop.length pop.length).1) default ∧
    (minList (randints r pop.length pop.length).1 = 0 ↔
      0 ∈ (randints r pop.length pop.length).1) := by
  have hb : 1 ≤ pop.length := List.length_pos.mpr hp
  refine ⟨rfl, ?_⟩
  have hlen := randints_length r pop.length hb pop.length
  have hne : (randints r pop.length pop.length).1 ≠ [] := by
    intro h0
    rw [h0] at hlen
    simp at hlen
    omega
  exact minList_eq_zero_iff _ hne

/-- C4 witness: concrete instantiation of the amended claim on a singleton
population. -/
theorem tournament_full_sample_best_iff_witness :
    (tournament rng0 [indA] [indA].length).1 =
      [indA].getD (minList (randints rng0 [indA].length [indA].length).1)
        default ∧
    (minList (randints rng0 [indA].length [indA].length).1 = 0 ↔
      0 ∈ (randints rng0 [indA].length [indA].length).1) :=
  tournament_full_sample_best_iff rng0 [indA] (by simp)

/-- C6 counterexample: with the identity stream, two winners `indP` (fitness
0, size 3) and `indQ` (fitness 1, size 1), the first fitness pass hands
`[indP, indQ]` to the second stage — ascending by fitness but not ascending
by size. -/
theorem fit_tournament_first_not_size_sorted :
    (fit_tournament_first rngId [indP, indQ] 2 1).1 = [indP, indQ] ∧
    ¬ List.Pairwise (fun a b => a.size ≤ b.size)
        (fit_tournament_first rngId [indP, indQ] 2 1).1 ∧
    indP.size = 3 ∧ indQ.size = 1 := by decide

/-- C6 (amended): the list of `Sf` fitness-tournament winners that the first
pass produces and hands to the second (size) stage is sorted ascending by
fitness (not by size), and has exactly `Sf` entries. -/
theorem fit_tournament_first_sorted_by_fitness (r : Rng)
    (pop : List Individual) (Sf n_comp : Nat) :
    List.Pairwise (fun a b => a.fitness ≤ b.fitness)
      (fit_tournament_first r pop Sf n_comp).1 ∧
    (fit_tournament_first r pop Sf n_comp).1.length = Sf := by
  constructor
  · exact pairwise_sortByKey (fun x => x.fitness) _
  · show (sortByKey _ (tournWinners r pop Sf n_comp).1).length = Sf
    rw [sortByKey_length]
    exact tournWinners_length r pop Sf n_comp

/-- C7: for `n ≤ N`, `getElite` returns exactly the first `n` elements of
the population in input order (and, consuming no random source, it has no
random effect by construction). -/
theorem getElite_first_n (pop : List Individual) (n : Nat)
    (h : n ≤ pop.length) :
    (getElite pop n).length = n ∧
    (∀ i, i < n → (getElite pop n).getD i default = pop.getD i default) ∧
    getElite pop n ++ pop.drop n = pop := by
  refine ⟨?_, ?_, List.take_append_drop n pop⟩
  · simp only [getElite, List.length_take]
    omega
  · intro i hi
    exact getD_take default pop n i hi

/-- C7 witness: concrete instantiation at a two-element population and
`n = 1`. -/
theorem getElite_first_n_witness :
    (getElite [indA, indB] 1).length = 1 ∧
    (∀ i, i < 1 →
      (getElite [indA, indB] 1).getD i default =
        [indA, indB].getD i default) ∧
    getElite [indA, indB] 1 ++ [indA, indB].drop 1 = [indA, indB] :=
  getElite_first_n [indA, indB] 1 (by simp)

/-- C8: `discardDeep` keeps exactly the Individuals whose depth is at most
the limit, preserves their relative order (the result is a sublist of the
input), and is idempotent. -/
theorem discardDeep_filter_spec (pop : List Individual) (limit : Nat) :
    (∀ i ∈ discardDeep pop limit, i.getDepth ≤ limit) ∧
    (∀ i ∈ pop, i.getDepth ≤ limit → i ∈ discardDeep pop limit) ∧
    List.Sublist (discardDeep pop limit) pop ∧
    discardDeep (discardDeep pop limit) limit = discardDeep pop limit := by
  simp only [discardDeep]
  refine ⟨?_, ?_, List.filter_sublist pop, ?_⟩
  · intro i hi
    have := (List.mem_filter.mp hi).2
    simpa using this
  · intro i hi hd
    exact List.mem_filter.mpr ⟨hi, by simpa using hd⟩
  · apply List.filter_eq_self.mpr
    intro a ha
    exact (List.mem_filter.mp ha).2

/-- C9: every operator taking the population sequence leaves it unchanged:
as state transformers over `GPState` (random source plus population), the
population component after the call equals the population before; in
particular the size pass sorts a fresh copy (a permutation) by size rather
than reordering its input. -/
theorem population_read_only (s : GPState) (n Sf Sp n_comp limit : Nat)
    (sw : Bool) :
    (tournamentS s n).2.pop = s.pop ∧
    (fit_tournament_firstS s Sf n_comp).2.pop = s.pop ∧
    (fit_tournament_secondS s Sf).2.pop = s.pop ∧
    (size_tournament_firstS s Sp n_comp).2.pop = s.pop ∧
    (size_tournament_secondS s Sp).2.pop = s.pop ∧
    (double_tournamentS s Sf Sp n_comp sw).2.pop = s.pop ∧
    (getEliteS s n).2.pop = s.pop ∧
    (discardDeepS s limit).2.pop = s.pop ∧
    (sortByKey (fun x => (x.size : Int)) s.pop).Perm s.pop :=
  ⟨rfl, rfl, rfl, rfl, rfl, rfl, rfl, rfl,
    sortByKey_perm (fun x => (x.size : Int)) s.pop⟩

/-- C10: when `n` exceeds the population size, `getElite` neither errors nor
pads: it returns the whole population unchanged (`min n N = N` elements). -/
theorem getElite_clamps (pop : List Individual) (n : Nat)
    (h : pop.length < n) :
    getElite pop n = pop ∧ (getElite pop n).length = min n pop.length := by
  have ht : pop.take n = pop := List.take_of_length_le (Nat.le_of_lt h)
  refine ⟨ht, ?_⟩
  show (pop.take n).length = min n pop.length
  rw [ht]
  omega

/-- C10 witness: concrete instantiation with `n = 3` on a two-element
population. -/
theorem getElite_clamps_witness :
    getElite [indA, indB] 3 = [indA, indB] ∧
    (getElite [indA, indB] 3).length = min 3 [indA, indB].length :=
  getElite_clamps [indA, indB] 3 (by simp)

/-- C2 (code bug, evaluated at the failing input): on the singleton
population `[indDeep]` (tree depth 3, configured maximum depth 2) with the
constant-zero stream, `getOffspring` performs crossover and returns two
Individuals of depth 3 — `discardDeep` at limit 2 would remove both, so a
depth-filtered result would be empty, yet `getOffspring` returns them
unfiltered (the source returns the variation result `desc` directly and
never calls `discardDeep`). -/
theorem getOffspring_returns_overdeep :
    okValue (getOffspring rng0 [indDeep] 1 false 0 0 false).1 =
      some [newIndividual indDeep indDeep.head,
            newIndividual indDeep indDeep.head] ∧
    (newIndividual indDeep indDeep.head).getDepth = 3 ∧
    (newIndividual indDeep indDeep.head).max_depth = 2 ∧
    discardDeep [newIndividual indDeep indDeep.head,
                 newIndividual indDeep indDeep.head] 2 = [] := by decide

/-- C5 counterexample: with the identity stream on `[indA, indB]`
(`tournament_size = 1`), the two selected parents are `indA` then `indB`,
but the second returned Individual carries `indA`'s configuration
(`model_name = "A"`), not the configuration of its source parent `indB`. -/
theorem STXO_second_config_counterexample :
    okValue (STXO rngId [indA, indB] 1 false 0 0 false).1 =
      some [newIndividual indA (Node.term "y"),
            newIndividual indA (Node.term "x")] ∧
    (tournament (tournament rngId [indA, indB] 1).2 [indA, indB] 1).1 = indB ∧
    (newIndividual indA (Node.term "x")).model_name = indA.model_name ∧
    indA.model_name ≠ indB.model_name := by decide

/-- C5 (amended): every successful `STXO` call returns exactly two
Individuals, and BOTH carry the configuration tuple of the first selected
parent `ind1` (the second offspring does not inherit from `ind2`). -/
theorem STXO_config_from_first_parent (r : Rng) (pop : List Individual)
    (ts : Nat) (db : Bool) (Sf Sp : Nat) (sw : Bool)
    (i1 : Individual) (r1 : Rng) (l : List Individual)
    (hsel : selectParent r pop ts db Sf Sp sw = (.ok i1, r1))
    (hok : (STXO r pop ts db Sf Sp sw).1 = .ok l) :
    l.length = 2 ∧ ∀ o ∈ l,
      o.operators = i1.operators ∧ o.terminals = i1.terminals ∧
      o.max_depth = i1.max_depth ∧ o.model_name = i1.model_name ∧
      o.fitnessType = i1.fitnessType := by
  unfold STXO at hok
  rw [hsel] at hok
  dsimp only at hok
  rcases h2 : selectParent r1 pop ts db Sf Sp sw with ⟨res2, r2⟩
  rw [h2] at hok
  cases res2 with
  | error e => simp at hok
  | ok i2 =>
      simp only [] at hok
      injection hok with hok
      subst hok
      refine ⟨rfl, ?_⟩
      intro o ho
      rcases List.mem_cons.mp ho with rfl | ho
      · exact ⟨rfl, rfl, rfl, rfl, rfl⟩
      rcases List.mem_cons.mp ho with rfl | ho
      · exact ⟨rfl, rfl, rfl, rfl, rfl⟩
      · simp at ho

/-- C5 witness: concrete instantiation of the amended claim (first selected
parent `indA`; both offspring carry `indA`'s configuration). -/
theorem STXO_config_from_first_parent_witness :
    [newIndividual indA (Node.term "y"),
     newIndividual indA (Node.term "x")].length = 2 ∧
    (∀ o ∈ [newIndividual indA (Node.term "y"),
            newIndividual indA (Node.term "x")],
      o.operators = indA.operators ∧ o.terminals = indA.terminals ∧
      o.max_depth = indA.max_depth ∧ o.model_name = indA.model_name ∧
      o.fitnessType = indA.fitnessType) :=
  STXO_config_from_first_parent rngId [indA, indB] 1 false 0 0 false
    indA ⟨fun n => n, 1⟩
    [newIndividual indA (Node.term "y"), newIndividual indA (Node.term "x")]
    rfl rfl
